import Mathlib

/-!
RediSearchBenchmark: the sharded index and the ingestion pipeline.

A shallow embedding of `ingest/ingest.go` (the index workers of `ReadDir` and
`ReadFile`, the enqueue loop of `ReadFile`, the statistics aggregation loop of
`ReadDir` and the channel structure of `ReadDir`), together with a model of
`DistributedIndex.Search` / `DistributedIndex.Suggest`, whose source is not
part of the sources at hand and is therefore modelled from the specification.

Conventions.
* `time.Duration`, `int64` and `int` values are integers (`Int`); every
  arithmetic operation of the Go code on them is wrapped to 64 bits by
  `wrap64` (Go's `int` is taken to be 64 bits wide).
* Scores (`float32`/`float64` in Go) are rationals: the theorems only use the
  order of scores and the test `== 0`; `0.0000001` is `1 / 10000000`.
* A Go channel's traffic is the list of the values that went through it.
-/

namespace RediSearchBenchmark

/-! ## Data model -/

/-- Modelled from the spec: the value of a document field (`interface{}` in the
Go code): a string, a number or any other scalar. The `index` package that
declares it is not among the sources. -/
inductive Value where
  | str (s : String)
  | num (q : ℚ)
  | other
  deriving DecidableEq, Repr

/-- Modelled from the spec: `index.Document`, "identifier (string), a relevance
score (float), a mapping of field name → value". The `index` package that
declares it is not among the sources; `ingest.go` uses the fields `Id`, `Score`
and `Properties`. -/
structure Document where
  Id : String
  Score : ℚ
  Properties : List (String × Value)
  deriving DecidableEq, Repr

/-- Modelled from the spec: `index.Suggestion`, "a term (string) and a score
(float)". The `index` package that declares it is not among the sources. -/
structure Suggestion where
  Term : String
  Score : ℚ
  deriving DecidableEq, Repr

/-- Modelled from the spec: `query.Query`, "target index name, free-text query
string". The `query` package is not among the sources. -/
structure Query where
  Index : String
  Term : String
  deriving DecidableEq, Repr

/-! ## The sharded index (modelled from the specification) -/

/-- Modelled from the spec: the `SingleNodeIndex` collaborator, restricted to
the two query operations, `Search(query) → (docs, total, err)` and
`Suggest(prefix, max, fuzzy) → ([]Suggestion, error)`. Its implementation is not
among the sources. -/
structure SingleNodeIndex where
  name : String
  Search : Query → Except String (List Document × Int)
  Suggest : String → Nat → Bool → Except String (List Suggestion)

/-- Modelled from the spec: `DistributedIndex`, which "owns N SingleNodeIndex instances";
its source file is not among the sources. -/
structure DistributedIndex where
  shards : List SingleNodeIndex

/-- Gathers the shard answers in shard order; the first error aborts. -/
def gather {α : Type} : List (Except String α) → Except String (List α)
  | [] => .ok []
  | .error e :: _ => .error e
  | .ok a :: rest =>
    match gather rest with
    | .error e => .error e
    | .ok as => .ok (a :: as)

/-- The order "score descending" on documents. -/
def docDesc (a b : Document) : Prop := b.Score ≤ a.Score

instance : DecidableRel docDesc := fun a b => inferInstanceAs (Decidable (b.Score ≤ a.Score))

/-- The order "score descending" on suggestions. -/
def suggDesc (a b : Suggestion) : Prop := b.Score ≤ a.Score

instance : DecidableRel suggDesc := fun a b => inferInstanceAs (Decidable (b.Score ≤ a.Score))

instance : IsTotal Document docDesc := ⟨fun a b => le_total b.Score a.Score⟩

instance : IsTrans Document docDesc := ⟨fun _ _ _ hab hbc => le_trans hbc hab⟩

instance : IsTotal Suggestion suggDesc := ⟨fun a b => le_total b.Score a.Score⟩

instance : IsTrans Suggestion suggDesc := ⟨fun _ _ _ hab hbc => le_trans hbc hab⟩

/-- The per-shard answers to a query: the query is "rewritten to each shard's
local index name" and sent to every shard. -/
def DistributedIndex.searchShards (d : DistributedIndex) (q : Query) :
    Except String (List (List Document × Int)) :=
  gather (d.shards.map (fun s => s.Search { q with Index := s.name }))

/-- Modelled from the spec: `DistributedIndex.Search`, "total = sum of per-shard
totals; result list = union of per-shard result lists re-sorted by descending
relevance score. Any shard error aborts the merge and is surfaced". The source
of `DistributedIndex` is not among the sources. The sort is stable. -/
def DistributedIndex.Search (d : DistributedIndex) (q : Query) :
    Except String (List Document × Int) :=
  match d.searchShards q with
  | .error e => .error e
  | .ok rs => .ok (((rs.map Prod.fst).flatten).insertionSort docDesc, (rs.map Prod.snd).sum)

/-- The per-shard answers to a suggestion request: "queries every shard for up
to `max` matches". -/
def DistributedIndex.suggestShards (d : DistributedIndex) (pfx : String) (max : Nat)
    (fuzzy : Bool) : Except String (List (List Suggestion)) :=
  gather (d.shards.map (fun s => s.Suggest pfx max fuzzy))

/-- Modelled from the spec: `DistributedIndex.Suggest`, "queries every shard for
up to `max` matches, concatenates, sorts by score descending, truncates to
`max`"; ties are "broken by encounter order" (the sort is stable). The source of
`DistributedIndex` is not among the sources. -/
def DistributedIndex.Suggest (d : DistributedIndex) (pfx : String) (max : Nat)
    (fuzzy : Bool) : Except String (List Suggestion) :=
  match d.suggestShards pfx max fuzzy with
  | .error e => .error e
  | .ok rs => .ok ((rs.flatten.insertionSort suggDesc).take max)

/-- A shard that answers from a fixed table: every query for `term` finds the
documents listed under it. -/
def tableShard (name : String) (table : List (String × List Document))
    (dict : List Suggestion) : SingleNodeIndex where
  name := name
  Search := fun q =>
    match table.lookup q.Term with
    | some ds => .ok (ds, ds.length)
    | none => .ok ([], 0)
  Suggest := fun pfx max _ =>
    .ok (((dict.filter (fun s => pfx.toList.isPrefixOf s.Term.toList)).insertionSort
      suggDesc).take max)

def doc1 : Document := ⟨"doc1", 1 / 10, [("title", .str "hello world"), ("score", .num 1)]⟩
def doc2 : Document := ⟨"doc2", 1, [("title", .str "foo bar hello"), ("score", .num 2)]⟩

/-- The two-shard index of `TestDistributedIndex`, with `doc1` on shard 0 and
`doc2` on shard 1, and the 100 suggestions split by parity. -/
def dtest : DistributedIndex where
  shards :=
    [ tableShard "dtest0" [("hello world", [doc1]), ("hello", [doc1])]
        ((List.range 50).map (fun i => ⟨"suggestion " ++ toString (2 * i), (2 * i : Nat)⟩)),
      tableShard "dtest1" [("hello", [doc2])]
        ((List.range 50).map (fun i => ⟨"suggestion " ++ toString (2 * i + 1), (2 * i + 1 : Nat)⟩)) ]

/-- The answers of the two shards of `dtest` to the request for 10 suggestions
with the prefix "sugg". -/
def dtestAnswers : List (List Suggestion) :=
  [ ((List.range 10).map (fun i => ⟨"suggestion " ++ toString (98 - 2 * i), (98 - 2 * i : Nat)⟩)),
    ((List.range 10).map (fun i => ⟨"suggestion " ++ toString (99 - 2 * i), (99 - 2 * i : Nat)⟩)) ]

/-! ## Machine integers and time -/

/-- Wraps an integer to the range of `int64`, as Go's arithmetic on `int64`,
`int` (taken to be 64 bits wide) and `time.Duration` does. -/
def wrap64 (x : Int) : Int := (x + 9223372036854775808) % 18446744073709551616 - 9223372036854775808

/-- The largest `time.Duration`. -/
def maxDuration : Int := 9223372036854775807

/-- The smallest `time.Duration`. -/
def minDuration : Int := -9223372036854775808

/-- The duration `time.Since(st)` when the clock reads `now` (nanoseconds): the
difference, saturated to the range of `time.Duration` as Go's `time` package
does. -/
def since (now st : Int) : Int := max minDuration (min maxDuration (now - st))

/-- The constant `200*time.Millisecond`, in nanoseconds. -/
def window : Int := 200 * 1000000

/-! ## The index workers (`ingest.go`, lines 92-119 and 205-212) -/

/-- The `index.Index` interface as far as the workers use it: the method
`Index(docs, opts)` on a backend with state `σ`, giving the new state and the
returned error (`none` is `nil`). The `opts` value is passed through unchanged
and is part of the function. -/
structure IndexImpl (σ : Type) where
  Index : σ → List Document → σ × Option String

/-- What a worker sees of the outside: the index backend and the number of
clock readings taken so far (reading number `k` of the run has the value
`clock k`). -/
structure World (σ : Type) where
  idx : σ
  tick : Nat

/-- The observable actions of an index worker. -/
inductive Event where
  /-- The call `idx.Index(batch, opts)`, with the error it returned. -/
  | indexCall (batch : List Document) (err : Option String)
  /-- The send `countch <- dur`. -/
  | latency (dur : Int)
  deriving DecidableEq, Repr

/-- One iteration of the loop `for doc := range doch` of an index worker of
`ReadDir` (lines 93-117): the value returned by `Index` is dropped. -/
def dirWorkerBody {σ : Type} (impl : IndexImpl σ) (clock : Nat → Int) (w : World σ)
    (doc : Document) : World σ × List Event :=
  if doc.Id ≠ "" then
    let st := clock w.tick
    let r := impl.Index w.idx [doc]
    let dur := since (clock (w.tick + 1)) st
    ({ idx := r.1, tick := w.tick + 2 }, [.indexCall [doc] r.2, .latency dur])
  else
    (w, [])

/-- The loop `for doc := range doch` of an index worker of `ReadDir`, on the
documents the worker takes from the channel. The body keeps nothing from one
iteration to the next, so this is also a pool of workers whose iterations run
one after the other in the order of the list. -/
def dirWorker {σ : Type} (impl : IndexImpl σ) (clock : Nat → Int) :
    World σ → List Document → World σ × List Event
  | w, [] => (w, [])
  | w, doc :: rest =>
    let r := dirWorkerBody impl clock w doc
    let rs := dirWorker impl clock r.1 rest
    (rs.1, r.2 ++ rs.2)

/-- One iteration of the loop `for doc := range doch` of an index worker of
`ReadFile` (lines 207-211). -/
def fileWorkerBody {σ : Type} (impl : IndexImpl σ) (w : World σ) (doc : Document) :
    World σ × List Event :=
  if doc.Id ≠ "" then
    let r := impl.Index w.idx [doc]
    ({ w with idx := r.1 }, [.indexCall [doc] r.2])
  else
    (w, [])

/-- The loop `for doc := range doch` of an index worker of `ReadFile`. -/
def fileWorker {σ : Type} (impl : IndexImpl σ) :
    World σ → List Document → World σ × List Event
  | w, [] => (w, [])
  | w, doc :: rest =>
    let r := fileWorkerBody impl w doc
    let rs := fileWorker impl r.1 rest
    (rs.1, r.2 ++ rs.2)

/-- The batches passed to `Index`, in order. -/
def indexCalls : List Event → List (List Document)
  | [] => []
  | .indexCall b _ :: rest => b :: indexCalls rest
  | .latency _ :: rest => indexCalls rest

/-- The durations sent on `countch`, in order. -/
def latencies : List Event → List Int
  | [] => []
  | .indexCall _ _ :: rest => latencies rest
  | .latency d :: rest => d :: latencies rest

/-! ## The enqueue loop of `ReadFile` (`ingest.go`, lines 175-284) -/

/-- The local variables of `ReadFile` during the loop `for doc := range ch`,
with the documents sent on `doch` so far and the panic that ended the loop, if
any. -/
structure FileLoop where
  terms : List Suggestion
  nterms : Int
  i : Int
  n : Int
  dt : Int
  totalDt : Int
  tick : Nat
  enqueued : List Document
  panicked : Option String

/-- The statement `if doc.Score == 0 { doc.Score = 0.0000001 }` (lines 246-248). -/
def fixScore (doc : Document) : Document :=
  if doc.Score = 0 then { doc with Score := 1 / 10000000 } else doc

/-- The loop `for k, v := range doc.Properties` (lines 250-256): the sum of
`len(s) + len(k)` over the properties whose value is a string, added to `acc`. -/
def dataSize (acc : Int) : List (String × Value) → Int
  | [] => acc
  | (k, .str s) :: rest => dataSize (wrap64 (acc + wrap64 ((s.utf8ByteSize : Int) + k.utf8ByteSize))) rest
  | (_, _) :: rest => dataSize acc rest

/-- The statements of lines 227-243, run when `doc.Score > 0 && ac != nil`: the
type assertion `doc.Properties["title"].(string)` and the store `terms[nterms]`
panic when they fail. `lower` is `strings.ToLower`. -/
def recordTerm (lower : String → String) (chunk : Int) (s : FileLoop) (doc : Document) :
    FileLoop :=
  match doc.Properties.lookup "title" with
  | some (.str title) =>
    if 0 ≤ s.nterms ∧ s.nterms.toNat < s.terms.length then
      let nterms := wrap64 (s.nterms + 1)
      { s with
        terms := s.terms.set s.nterms.toNat ⟨lower title, doc.Score⟩
        nterms := if nterms = chunk then 0 else nterms }
    else
      { s with panicked := some "index out of range" }
  | _ => { s with panicked := some "interface conversion: not a string" }

/-- The body of the loop `for doc := range ch` of `ReadFile` (lines 214-278).
`acPresent` is `ac != nil`. The report of lines 271-273 is printed only; it
takes two clock readings, and `st = time.Now()` a third. -/
def readFileBody (lower : String → String) (acPresent : Bool) (chunk : Int) (s : FileLoop)
    (doc : Document) : FileLoop :=
  let s1 := if 0 < doc.Score ∧ acPresent = true then recordTerm lower chunk s doc else s
  match s1.panicked with
  | some _ => s1
  | none =>
    let doc1 := fixScore doc
    let s2 : FileLoop :=
      { s1 with
        dt := dataSize s1.dt doc1.Properties
        totalDt := dataSize s1.totalDt doc1.Properties
        i := wrap64 (s1.i + 1)
        n := wrap64 (s1.n + 1)
        enqueued := s1.enqueued ++ [doc1] }
    if chunk = 0 then
      { s2 with panicked := some "integer divide by zero" }
    else if Int.tmod s2.i chunk = 0 then
      { s2 with tick := s2.tick + 3, n := 0, dt := 0 }
    else
      s2

/-- The loop `for doc := range ch` of `ReadFile`, on the documents the reader
delivers on `ch`; a panic ends it. -/
def readFileLoop (lower : String → String) (acPresent : Bool) (chunk : Int) :
    FileLoop → List Document → FileLoop
  | s, [] => s
  | s, doc :: rest =>
    let s1 := readFileBody lower acPresent chunk s doc
    match s1.panicked with
    | some _ => s1
    | none => readFileLoop lower acPresent chunk s1 rest

/-- The limits of the Go runtime on the machine at hand, which are not part of
the sources: the largest capacity `n` for which `make(chan index.Document, n)`
succeeds and the largest length `n` for which `make([]index.Suggestion, n)`
succeeds; beyond them `make` panics ("size out of range", "len out of range")
or the program dies for lack of memory. -/
structure Runtime where
  maxChan : Int
  maxSlice : Int

/-- How a call of `ReadFile` ends; a crash of the program counts as a panic. -/
inductive Ending where
  | returned (err : Option String)
  | panicked (msg : String)
  deriving DecidableEq, Repr

/-- `ReadFile` (lines 175-284) up to the hand-over to the index workers: how
the call ends and the documents it sent on `doch`. `openErr` is the error of
`os.Open`, `read` the result of `r.Read`: an error, or the documents that the
reader delivers on `ch` before it closes `ch` (the loop over `ch` ends only for
a reader that closes it). The three `make` calls (lines 186, 192 and 202) fail
outside the limits of the runtime `rt`. When the call returns `nil` the workers
have taken every document sent on `doch` (see `fileStep`). -/
def ReadFile (rt : Runtime) (lower : String → String) (openErr : Option String)
    (read : Except String (List Document)) (acPresent : Bool) (chunk : Int) :
    Ending × List Document :=
  match openErr with
  | some e => (.returned (some e), [])
  | none =>
    if chunk < 0 ∨ rt.maxChan < chunk then (.panicked "makechan: size out of range", [])
    else
      match read with
      | .error e => (.returned (some e), [])
      | .ok docs =>
        if wrap64 (chunk * 2) < 0 ∨ rt.maxSlice < wrap64 (chunk * 2) then
          (.panicked "makeslice: len out of range", [])
        else if rt.maxChan < 100 then (.panicked "makechan: size out of range", [])
        else
          let init : FileLoop :=
            { terms := List.replicate (wrap64 (chunk * 2)).toNat ⟨"", 0⟩
              nterms := 0, i := 0, n := 0, dt := 0, totalDt := 0, tick := 1
              enqueued := [], panicked := none }
          let s := readFileLoop lower acPresent chunk init docs
          match s.panicked with
          | some m => (.panicked m, s.enqueued)
          | none => (.returned none, s.enqueued)

/-! ## The statistics loop of `ReadDir` (`ingest.go`, lines 141-172) -/

/-- The struct `Stats` (lines 53-59); durations are in nanoseconds, and the
rate (a `float64` in Go) is the exact quotient. -/
structure Stats where
  TotalDocs : Int
  CurrentWindowDocs : Int
  CurrentWindowDuration : Int
  CurrentWindowRate : ℚ
  CurrentWindowLatency : Int
  deriving DecidableEq, Repr

/-- The local variables of `ReadDir` during the loop `for rtt := range countch`,
with the number of clock readings taken so far. -/
structure Agg where
  stt : Stats
  st : Int
  totalLatency : Int
  tick : Nat
  deriving DecidableEq, Repr

/-- The state before the loop (lines 141-150): `stt` is zero and `st` is the
first clock reading. -/
def aggInit (clock : Nat → Int) : Agg :=
  { stt := ⟨0, 0, 0, 0, 0⟩, st := clock 0, totalLatency := 0, tick := 1 }

/-- The body of the loop `for rtt := range countch` (lines 152-169): the new
state and the snapshot of the window, when one ends here. The snapshot is
printed and, when `stats != nil`, sent on `stats`. An integer division by zero
panics. -/
def aggStep (clock : Nat → Int) (a : Agg) (rtt : Int) : Except String (Agg × Option Stats) :=
  let stt : Stats :=
    { a.stt with
      TotalDocs := wrap64 (a.stt.TotalDocs + 1)
      CurrentWindowDocs := wrap64 (a.stt.CurrentWindowDocs + 1) }
  let totalLatency := wrap64 (a.totalLatency + rtt)
  if since (clock a.tick) a.st > window then
    let dur := since (clock (a.tick + 1)) a.st
    let divisor := wrap64 (1 + stt.CurrentWindowDocs)
    if divisor = 0 then .error "integer divide by zero"
    else
      let snap : Stats :=
        { stt with
          CurrentWindowDuration := dur
          CurrentWindowRate := (stt.CurrentWindowDocs : ℚ) / ((dur : ℚ) / 1000000000)
          CurrentWindowLatency := wrap64 (Int.tdiv totalLatency divisor) }
      .ok ({ stt := { snap with CurrentWindowDocs := 0 }, st := clock (a.tick + 2),
             totalLatency := 0, tick := a.tick + 3 }, some snap)
  else
    .ok ({ stt := stt, st := a.st, totalLatency := totalLatency, tick := a.tick + 1 }, none)

/-- A run of the loop `for rtt := range countch`: the final state, for each
value received the snapshot emitted on receiving it (if any), and the panic that
ended the loop, if any. -/
structure AggRun where
  final : Agg
  trace : List (Option Stats)
  panicked : Option String

/-- The loop `for rtt := range countch` on the values received from `countch`. -/
def aggLoop (clock : Nat → Int) : Agg → List Int → AggRun
  | a, [] => ⟨a, [], none⟩
  | a, rtt :: rest =>
    match aggStep clock a rtt with
    | .error e => ⟨a, [], some e⟩
    | .ok (a1, snap) =>
      let r := aggLoop clock a1 rest
      ⟨r.final, snap :: r.trace, r.panicked⟩

/-- The snapshots emitted by a run of the statistics loop of `ReadDir`, in
order: each is printed and, when `stats != nil`, sent on `stats`. -/
def snapshots (clock : Nat → Int) (lats : List Int) : List Stats :=
  (aggLoop clock (aggInit clock) lats).trace.filterMap id

/-- A clock given by its first readings; after them it stays at `last`. -/
def clockOf (readings : List Int) (last : Int) : Nat → Int :=
  fun k => readings.getD k last

/-! ## The goroutines and channels of `ReadDir` (`ingest.go`, lines 77-172)

The control flow and the channel operations of `ReadDir` as an interleaving of
atomic steps of its goroutines. An index worker runs `dirWorkerBody` on each
document it receives; what the caller computes from the values it receives is
`aggStep` above. -/

/-- A Go channel: the values in it, its capacity and whether `close` was called
on it. An unbuffered channel (capacity 0) is given one slot for the value being
handed over. -/
structure Chan (α : Type) where
  buf : List α
  cap : Nat
  closed : Bool

/-- The result of a receive `<-c`, also in `for x := range c`. -/
inductive Recv (α : Type) where
  /-- A value was received; the channel is left as given. -/
  | value (a : α) (rest : Chan α)
  /-- The channel is closed and empty: `range` ends. -/
  | done
  /-- The channel is open and empty: the receiver waits. -/
  | blocked

/-- Receives from a channel. -/
def Chan.recv {α : Type} (c : Chan α) : Recv α :=
  match c.buf with
  | a :: rest => .value a { c with buf := rest }
  | [] => if c.closed then .done else .blocked

/-- Sends on a channel; `none` when the channel is full and the sender waits. -/
def Chan.send {α : Type} (c : Chan α) (a : α) : Option (Chan α) :=
  if c.buf.length < max c.cap 1 then some { c with buf := c.buf ++ [a] } else none

/-- `make(chan α, cap)`. -/
def Chan.make {α : Type} (cap : Nat) : Chan α := ⟨[], cap, false⟩

/-- The inputs of a call of `ReadDir`: the paths `walkDir` sends, in order; the
documents the reader delivers for a file (none when the file cannot be opened
or read); the index `idx` with its state at the start; the clock; and the
arguments `chunk`, `workers` and `conns`. -/
structure DirConfig (σ : Type) where
  files : List String
  read : String → List Document
  impl : IndexImpl σ
  idx0 : σ
  clock : Nat → Int
  chunk : Nat
  workers : Nat
  conns : Nat

/-- A file reader goroutine (lines 126-138). -/
inductive FileWorker where
  /-- At `for file := range filech`. -/
  | idle
  /-- In `r.Read`, with the documents still to be delivered on `doch`. -/
  | reading (docs : List Document)
  /-- The loop over `filech` has ended. -/
  | exited
  deriving DecidableEq, Repr

/-- An index worker goroutine (lines 92-119). -/
inductive IndexWorker where
  /-- At `for doc := range doch`. -/
  | idle
  /-- At `countch <- dur`. -/
  | sending (dur : Int)
  /-- The loop over `doch` has ended and `wg.Done()` was called. -/
  | exited
  deriving DecidableEq, Repr

/-- The goroutine that called `ReadDir`. -/
inductive Caller where
  /-- At `for rtt := range countch`. -/
  | looping
  /-- After the loop: "Done!" is printed and `ReadDir` returns. -/
  | returned
  deriving DecidableEq, Repr

/-- A state of a call of `ReadDir`. `walker` holds the paths `walkDir` has
still to send, and is `none` once `walkDir` returned and the deferred
`close(filech)` ran. `wg` is the counter of the wait group, `waited` whether
`wg.Wait()` returned, and `received` the values the caller took from
`countch`. `world` is the index and the clock as the index workers left them,
`delivered` the documents sent on `doch` so far and `taken` the documents
received from `doch` so far. -/
structure DirState (σ : Type) where
  filech : Chan String
  doch : Chan Document
  countch : Chan Int
  walker : Option (List String)
  fileWorkers : List FileWorker
  indexWorkers : List IndexWorker
  wg : Nat
  waited : Bool
  caller : Caller
  received : List Int
  world : World σ
  delivered : List Document
  taken : List Document

/-- The state after the goroutines of lines 79-139 are started. -/
def DirState.init {σ : Type} (cfg : DirConfig σ) : DirState σ where
  filech := Chan.make 100
  doch := Chan.make cfg.chunk
  countch := Chan.make (cfg.chunk * cfg.workers)
  walker := some cfg.files
  fileWorkers := List.replicate cfg.workers .idle
  indexWorkers := []
  wg := 0
  waited := false
  caller := .looping
  received := []
  world := ⟨cfg.idx0, 0⟩
  delivered := []
  taken := []

/-- The atomic steps of the goroutines of `ReadDir`. -/
inductive Action where
  /-- `ch <- fullpath` in `walkDir`. -/
  | walkSend
  /-- `walkDir` returns and `close(filech)` runs. -/
  | walkClose
  /-- `wg.Add(1)` and the start of the next index worker. -/
  | spawn
  /-- `wg.Wait()` returns. -/
  | wgWait
  /-- File worker `k` receives from `filech`. -/
  | fileRecv (k : Nat)
  /-- The reader called by file worker `k` sends on `doch`, or returns. -/
  | fileRead (k : Nat)
  /-- Index worker `k` receives from `doch` and runs the loop body up to the
  send on `countch` (`dirWorkerBody`). -/
  | indexRecv (k : Nat)
  /-- Index worker `k` sends on `countch`. -/
  | indexSend (k : Nat)
  /-- The caller receives from `countch`. -/
  | callerRecv
  deriving DecidableEq, Repr

/-- One step of a call of `ReadDir`; `none` when the goroutine cannot move. -/
def step {σ : Type} (cfg : DirConfig σ) (s : DirState σ) : Action → Option (DirState σ)
  | .walkSend =>
    match s.walker with
    | some (f :: rest) =>
      match s.filech.send f with
      | some ch => some { s with filech := ch, walker := some rest }
      | none => none
    | _ => none
  | .walkClose =>
    match s.walker with
    | some [] => some { s with filech := { s.filech with closed := true }, walker := none }
    | _ => none
  | .spawn =>
    if s.indexWorkers.length < cfg.conns then
      some { s with wg := s.wg + 1, indexWorkers := s.indexWorkers ++ [.idle] }
    else none
  | .wgWait =>
    if s.indexWorkers.length = cfg.conns ∧ s.wg = 0 ∧ s.waited = false then
      some { s with waited := true }
    else none
  | .fileRecv k =>
    match s.fileWorkers[k]? with
    | some .idle =>
      match s.filech.recv with
      | .value f ch =>
        some { s with filech := ch, fileWorkers := s.fileWorkers.set k (.reading (cfg.read f)) }
      | .done => some { s with fileWorkers := s.fileWorkers.set k .exited }
      | .blocked => none
    | _ => none
  | .fileRead k =>
    match s.fileWorkers[k]? with
    | some (.reading (d :: rest)) =>
      match s.doch.send d with
      | some ch =>
        some { s with doch := ch, fileWorkers := s.fileWorkers.set k (.reading rest),
                      delivered := s.delivered ++ [d] }
      | none => none
    | some (.reading []) => some { s with fileWorkers := s.fileWorkers.set k .idle }
    | _ => none
  | .indexRecv k =>
    match s.indexWorkers[k]? with
    | some .idle =>
      match s.doch.recv with
      | .value d ch =>
        match latencies (dirWorkerBody cfg.impl cfg.clock s.world d).2 with
        | dur :: _ =>
          some { s with doch := ch, taken := s.taken ++ [d],
                        world := (dirWorkerBody cfg.impl cfg.clock s.world d).1,
                        indexWorkers := s.indexWorkers.set k (.sending dur) }
        | [] =>
          some { s with doch := ch, taken := s.taken ++ [d],
                        world := (dirWorkerBody cfg.impl cfg.clock s.world d).1 }
      | .done => some { s with indexWorkers := s.indexWorkers.set k .exited, wg := s.wg - 1 }
      | .blocked => none
    | _ => none
  | .indexSend k =>
    match s.indexWorkers[k]? with
    | some (.sending dur) =>
      match s.countch.send dur with
      | some ch => some { s with countch := ch, indexWorkers := s.indexWorkers.set k .idle }
      | none => none
    | _ => none
  | .callerRecv =>
    match s.caller with
    | .looping =>
      match s.countch.recv with
      | .value d ch => some { s with countch := ch, received := s.received ++ [d] }
      | .done => some { s with caller := .returned }
      | .blocked => none
    | .returned => none

/-- Runs a schedule: a sequence of steps from a state; `none` when one of them
cannot be taken. -/
def run {σ : Type} (cfg : DirConfig σ) : DirState σ → List Action → Option (DirState σ)
  | s, [] => some s
  | s, a :: rest =>
    match step cfg s a with
    | some s1 => run cfg s1 rest
    | none => none

/-- An index whose every `Index` call returns an error. -/
def failingIndex : IndexImpl Unit := ⟨fun s _ => (s, some "index failed")⟩

/-- A document with a non-empty identifier and the score 0. -/
def zeroScoreDoc : Document := ⟨"doc1", 0, [("title", .str "hello world")]⟩

/-- An index that records the batches it is given: its state is the list of
the batches passed to `Index` so far. -/
def recordingIndex : IndexImpl (List (List Document)) := ⟨fun st b => (st ++ [b], none)⟩

/-- The state of the index after `Index` has been called with the one-document
batch of each document of `docs` in turn, from the state `st`. -/
def indexAll {σ : Type} (impl : IndexImpl σ) (st : σ) (docs : List Document) : σ :=
  docs.foldl (fun st d => (impl.Index st [d]).1) st

/-- A call of `ReadDir` on an empty directory, with one file worker and one
index worker. -/
def emptyDir : DirConfig Unit :=
  { files := [], read := fun _ => [], impl := failingIndex, idx0 := (),
    clock := fun _ => 0, chunk := 1, workers := 1, conns := 1 }

/-- A call of `ReadDir` on a directory with the one file "a", which holds the
one document "doc1"; the clock reads 10 and 15 around the `Index` call. -/
def oneFile : DirConfig Unit :=
  { files := ["a"], read := fun _ => [⟨"doc1", 1, []⟩], impl := failingIndex, idx0 := (),
    clock := fun k => if k = 0 then 10 else 15, chunk := 1, workers := 1, conns := 1 }

/-! ## The goroutines and the channel of `ReadFile` (`ingest.go`, lines 202-283)

The hand-over of `ReadFile` to its 200 index workers, as an interleaving of
atomic steps. What the loop over `ch` computes is `readFileLoop` above; here it
sends the documents `docs` on `doch`. -/

/-- The inputs of the hand-over: the documents the loop of lines 214-278 sends on
`doch`, in order, and the index `idx` with its state at the start. -/
structure FileConfig (σ : Type) where
  docs : List Document
  impl : IndexImpl σ
  idx0 : σ

/-- The goroutine that called `ReadFile`, from line 214 on. -/
inductive Producer where
  /-- In the loop `for doc := range ch`, with the documents still to be sent on
  `doch`. -/
  | sending (rest : List Document)
  /-- After `close(doch)`, at `wg.Wait()`. -/
  | waiting
  /-- `ReadFile` has returned `nil`. -/
  | returned
  deriving DecidableEq, Repr

/-- The documents the caller of `ReadFile` has still to send on `doch`. -/
def Producer.toSend : Producer → List Document
  | .sending rest => rest
  | .waiting => []
  | .returned => []

/-- A state of the hand-over of `ReadFile`: `exited` tells for each of the 200
workers whether its loop over `doch` has ended (and `wg.Done()` was called), `wg`
is the counter of the wait group, `world` the index as the workers left it,
`delivered` the documents sent on `doch` so far and `taken` the documents
received from `doch` so far. -/
structure FileState (σ : Type) where
  doch : Chan Document
  producer : Producer
  exited : List Bool
  wg : Nat
  world : World σ
  delivered : List Document
  taken : List Document

/-- The state when the loop `for doc := range ch` starts (line 214): `doch` is
made with capacity 100 and the 200 workers are started. -/
def FileState.init {σ : Type} (cfg : FileConfig σ) : FileState σ where
  doch := Chan.make 100
  producer := .sending cfg.docs
  exited := List.replicate 200 false
  wg := 200
  world := ⟨cfg.idx0, 0⟩
  delivered := []
  taken := []

/-- The atomic steps of the goroutines of `ReadFile`. -/
inductive FileAction where
  /-- `doch <- doc` (line 260). -/
  | send
  /-- The loop over `ch` ends and `close(doch)` runs (line 280). -/
  | close
  /-- Worker `k` receives from `doch` and runs the loop body (`fileWorkerBody`),
  or finds `doch` closed and empty and leaves its loop. -/
  | workerRecv (k : Nat)
  /-- `wg.Wait()` returns and `ReadFile` returns `nil` (lines 282-283). -/
  | wait
  deriving DecidableEq, Repr

/-- One step of the hand-over of `ReadFile`; `none` when the goroutine cannot
move. -/
def fileStep {σ : Type} (cfg : FileConfig σ) (s : FileState σ) :
    FileAction → Option (FileState σ)
  | .send =>
    match s.producer with
    | .sending (d :: rest) =>
      match s.doch.send d with
      | some ch =>
        some { s with doch := ch, producer := .sending rest, delivered := s.delivered ++ [d] }
      | none => none
    | _ => none
  | .close =>
    match s.producer with
    | .sending [] =>
      some { s with doch := { s.doch with closed := true }, producer := .waiting }
    | _ => none
  | .workerRecv k =>
    match s.exited[k]? with
    | some false =>
      match s.doch.recv with
      | .value d ch =>
        some { s with doch := ch, taken := s.taken ++ [d],
                      world := (fileWorkerBody cfg.impl s.world d).1 }
      | .done => some { s with exited := s.exited.set k true, wg := s.wg - 1 }
      | .blocked => none
    | _ => none
  | .wait =>
    match s.producer with
    | .waiting => if s.wg = 0 then some { s with producer := .returned } else none
    | _ => none

/-- Runs a schedule of the hand-over of `ReadFile`; `none` when one of its steps
cannot be taken. -/
def fileRun {σ : Type} (cfg : FileConfig σ) :
    FileState σ → List FileAction → Option (FileState σ)
  | s, [] => some s
  | s, a :: rest =>
    match fileStep cfg s a with
    | some s1 => fileRun cfg s1 rest
    | none => none

/-- What holds in every state of the hand-over of `ReadFile`: the documents sent
and still to be sent are `docs`; `doch` is open while the caller sends; once a
worker has left its loop `doch` is closed and empty; and the wait group is at 0
once `ReadFile` has returned. -/
def FileState.Sound {σ : Type} (cfg : FileConfig σ) (s : FileState σ) : Prop :=
  s.delivered ++ s.producer.toSend = cfg.docs ∧
  ((∃ rest, s.producer = .sending rest) → s.doch.closed = false) ∧
  s.wg ≤ 200 ∧
  (s.wg < 200 → s.doch.buf = [] ∧ s.doch.closed = true) ∧
  (s.producer = .returned → s.wg = 0)

/-- A runtime that can make channels and slices of up to a million elements. -/
def exampleRuntime : Runtime := ⟨1000000, 1000000⟩

/-- A call of `ReadDir` on a directory with the one file "a", which holds three
documents, the second with an empty `Id`; the index records its batches. -/
def threeDocs : DirConfig (List (List Document)) :=
  { files := ["a"], read := fun _ => [doc2, ⟨"", 1, []⟩, zeroScoreDoc],
    impl := recordingIndex, idx0 := [], clock := fun _ => 0,
    chunk := 3, workers := 1, conns := 1 }

/-- A schedule of `ReadDir` on `threeDocs`: the file is read, its three
documents are sent on `doch` and the index worker takes them. -/
def threeDocsDirSchedule : List Action :=
  [.walkSend, .walkClose, .spawn, .fileRecv 0, .fileRead 0, .fileRead 0, .fileRead 0,
    .indexRecv 0, .indexSend 0, .indexRecv 0, .indexRecv 0]

/-- The hand-over of `ReadFile` for three documents, the second with an empty
`Id`; the index records its batches. -/
def threeDocsFile : FileConfig (List (List Document)) :=
  { docs := [doc2, ⟨"", 1, []⟩, zeroScoreDoc], impl := recordingIndex, idx0 := [] }

/-- A schedule of the hand-over of `ReadFile` for three documents: they are
sent, `doch` is closed, worker 7 takes them, every worker leaves its loop, and
`ReadFile` returns. -/
def threeDocsSchedule : List FileAction :=
  [.send, .send, .send, .close, .workerRecv 7, .workerRecv 7, .workerRecv 7] ++
    (List.range 200).map .workerRecv ++ [.wait]

/-- A clock under which the first and the third of three latencies end a
window: the readings are in nanoseconds, the loop starts at 0. -/
def twoWindows : Nat → Int :=
  clockOf [0, 300000000, 300000000, 300000000, 350000000, 600000000, 600000000] 600000000

/-- A clock under which the first of two latencies ends a window and the second
does not. -/
def oneWindow : Nat → Int :=
  clockOf [0, 300000000, 300000000, 300000000] 350000000

/-- The state of the loop of `ReadFile` is sound: nothing has panicked, and
`nterms` is an index of `terms` below `chunk`. -/
def FileLoop.Sound (chunk : Int) (s : FileLoop) : Prop :=
  s.panicked = none ∧ 0 ≤ s.nterms ∧ s.nterms < chunk ∧ chunk ≤ s.terms.length

/-- The snapshots account for the documents from `base` on: each one counts at
least one document in its window, and its total is the total of the snapshot
before it (`base` for the first) plus its window count. -/
def Accounted : Int → List Stats → Prop
  | _, [] => True
  | base, s :: rest =>
    1 ≤ s.CurrentWindowDocs ∧ s.TotalDocs = base + s.CurrentWindowDocs ∧
      Accounted s.TotalDocs rest

/-! ## Theorems: the sharded index -/

theorem gather_map_ok {α : Type} (l : List α) : gather (l.map Except.ok) = .ok l := by
  induction l with
  | nil => rfl
  | cons a rest ih => simp [gather, ih]

/-- C1: when every shard answers a query without error (shard number `i`
answers `answers[i]`), `DistributedIndex.Search` returns the sum of the
per-shard totals and a document list that is a permutation of the concatenation
of the per-shard lists in which every document's score is at least the score of
every later one (in particular of the next one). Holds for any number of
shards. -/
theorem search_total_and_ranking (d : DistributedIndex) (q : Query)
    (answers : List (List Document × Int))
    (hok : d.shards.map (fun s => s.Search { q with Index := s.name }) =
      answers.map Except.ok) :
    ∃ docs, d.Search q = .ok (docs, (answers.map Prod.snd).sum) ∧
      docs.Perm (answers.map Prod.fst).flatten ∧
      docs.Pairwise (fun a b => b.Score ≤ a.Score) ∧
      docs.Chain' (fun a b => b.Score ≤ a.Score) := by
  have hs : d.searchShards q = .ok answers := by
    unfold DistributedIndex.searchShards
    rw [hok, gather_map_ok]
  have hsorted : ((answers.map Prod.fst).flatten.insertionSort docDesc).Pairwise
      (fun a b => b.Score ≤ a.Score) :=
    List.sorted_insertionSort docDesc _
  refine ⟨(answers.map Prod.fst).flatten.insertionSort docDesc, ?_, ?_, hsorted, hsorted.chain'⟩
  · simp [DistributedIndex.Search, hs]
  · exact List.perm_insertionSort docDesc _

/-- C1, at the index of `TestDistributedIndex`: with `doc1` (score 0.1) and
`doc2` (score 1.0) on two shards, the search for "hello" returns the total 2 and
the list `[doc2, doc1]`. -/
theorem search_total_and_ranking_witness :
    dtest.Search ⟨"dtest", "hello"⟩ = .ok ([doc2, doc1], 2) ∧
    ∃ docs, dtest.Search ⟨"dtest", "hello"⟩ =
        .ok (docs, ([(([doc1] : List Document), (1 : Int)), ([doc2], 1)].map Prod.snd).sum) ∧
      docs.Perm ([(([doc1] : List Document), (1 : Int)), ([doc2], 1)].map Prod.fst).flatten ∧
      docs.Pairwise (fun a b => b.Score ≤ a.Score) ∧
      docs.Chain' (fun a b => b.Score ≤ a.Score) :=
  ⟨by
    simp [DistributedIndex.Search, DistributedIndex.searchShards, dtest, tableShard, gather,
      List.lookup, List.insertionSort, List.orderedInsert, docDesc]
    norm_num [doc1, doc2],
   search_total_and_ranking dtest ⟨"dtest", "hello"⟩ [([doc1], 1), ([doc2], 1)] (by rfl)⟩

/-- C2: when no shard fails (shard number `i` answers `answers[i]`),
`DistributedIndex.Suggest` returns a list of at most `max` suggestions (exactly
`max` when the shards gave that many), sorted by descending score, that holds
the highest-scored entries of the concatenated per-shard answers: with the
entries left out it is a permutation of the concatenation, and no entry left out
has a higher score than an entry returned. -/
theorem suggest_top_max (d : DistributedIndex) (pfx : String) (max : Nat) (fuzzy : Bool)
    (answers : List (List Suggestion))
    (hok : d.shards.map (fun s => s.Suggest pfx max fuzzy) = answers.map Except.ok) :
    ∃ res, d.Suggest pfx max fuzzy = .ok res ∧
      res.length ≤ max ∧
      res.length = min max answers.flatten.length ∧
      res.Pairwise (fun a b => b.Score ≤ a.Score) ∧
      ∃ rest, (res ++ rest).Perm answers.flatten ∧
        ∀ a ∈ res, ∀ b ∈ rest, b.Score ≤ a.Score := by
  have hs : d.suggestShards pfx max fuzzy = .ok answers := by
    unfold DistributedIndex.suggestShards
    rw [hok, gather_map_ok]
  have hsorted : (answers.flatten.insertionSort suggDesc).Pairwise
      (fun a b => b.Score ≤ a.Score) :=
    List.sorted_insertionSort suggDesc _
  have hperm := List.perm_insertionSort suggDesc answers.flatten
  refine ⟨(answers.flatten.insertionSort suggDesc).take max, ?_, ?_, ?_, ?_,
    (answers.flatten.insertionSort suggDesc).drop max, ?_, ?_⟩
  · simp [DistributedIndex.Suggest, hs]
  · simp [List.length_take]
  · simp [List.length_take, hperm.length_eq]
  · exact hsorted.sublist (List.take_sublist _ _)
  · rw [List.take_append_drop]
    exact hperm
  · have h := hsorted
    rw [← List.take_append_drop max (answers.flatten.insertionSort suggDesc),
      List.pairwise_append] at h
    exact h.2.2

/-- C2, at the index of `TestDistributedIndex`: with the 100 suggestions
"suggestion 0" .. "suggestion 99" (scores 0 .. 99) on two shards,
`Suggest("sugg", 10, false)` returns exactly 10 entries, those with the scores
99 down to 90. -/
theorem suggest_top_max_witness :
    (dtest.Suggest "sugg" 10 false).toOption.map (List.map (fun s => s.Term)) =
      some ["suggestion 99", "suggestion 98", "suggestion 97", "suggestion 96",
        "suggestion 95", "suggestion 94", "suggestion 93", "suggestion 92", "suggestion 91",
        "suggestion 90"] ∧
    ∃ res, dtest.Suggest "sugg" 10 false = .ok res ∧
      res.length ≤ 10 ∧
      res.length = min 10 dtestAnswers.flatten.length ∧
      res.Pairwise (fun a b => b.Score ≤ a.Score) ∧
      ∃ rest, (res ++ rest).Perm dtestAnswers.flatten ∧
        ∀ a ∈ res, ∀ b ∈ rest, b.Score ≤ a.Score :=
  ⟨by decide, suggest_top_max dtest "sugg" 10 false dtestAnswers (by rfl)⟩

/-! ## Theorems: the index workers -/

theorem indexCalls_append (xs ys : List Event) :
    indexCalls (xs ++ ys) = indexCalls xs ++ indexCalls ys := by
  induction xs with
  | nil => rfl
  | cons e rest ih => cases e <;> simp [indexCalls, ih]

theorem latencies_append (xs ys : List Event) :
    latencies (xs ++ ys) = latencies xs ++ latencies ys := by
  induction xs with
  | nil => rfl
  | cons e rest ih => cases e <;> simp [latencies, ih]

theorem dirWorker_indexCalls {σ : Type} (impl : IndexImpl σ) (clock : Nat → Int)
    (w : World σ) (docs : List Document) :
    indexCalls (dirWorker impl clock w docs).2 =
      (docs.filter (fun d => d.Id ≠ "")).map (fun d => [d]) := by
  induction docs generalizing w with
  | nil => rfl
  | cons doc rest ih =>
    by_cases h : doc.Id = "" <;>
      simp [dirWorker, dirWorkerBody, indexCalls_append, indexCalls, ih, h]

theorem fileWorker_indexCalls {σ : Type} (impl : IndexImpl σ)
    (w : World σ) (docs : List Document) :
    indexCalls (fileWorker impl w docs).2 =
      (docs.filter (fun d => d.Id ≠ "")).map (fun d => [d]) := by
  induction docs generalizing w with
  | nil => rfl
  | cons doc rest ih =>
    by_cases h : doc.Id = "" <;>
      simp [fileWorker, fileWorkerBody, indexCalls_append, indexCalls, ih, h]

theorem dirWorker_latencies_length {σ : Type} (impl : IndexImpl σ) (clock : Nat → Int)
    (w : World σ) (docs : List Document) :
    (latencies (dirWorker impl clock w docs).2).length =
      (docs.filter (fun d => d.Id ≠ "")).length := by
  induction docs generalizing w with
  | nil => rfl
  | cons doc rest ih =>
    by_cases h : doc.Id = "" <;>
      simp [dirWorker, dirWorkerBody, latencies_append, latencies, ih, h]

/-- C5, refuted: with an index whose `Index` call fails, the worker of `ReadDir`
still pushes a latency for a document with a non-empty `Id`, so "a latency is
pushed if and only if `Index` returned no error" is false. -/
theorem latency_pushed_although_index_failed :
    ¬ (latencies (dirWorkerBody failingIndex (clockOf [10, 25] 25) ⟨(), 0⟩ doc2).2 ≠ [] ↔
        (failingIndex.Index () [doc2]).2 = none) := by
  decide

/-- C5, amended: for every document with a non-empty `Id` taken by an index
worker of `ReadDir`, exactly one latency is pushed on the statistics channel,
after the `Index` call and whatever that call returned; so a worker pushes as
many latencies as it takes documents with a non-empty `Id`. -/
theorem latency_pushed_for_every_indexed_doc {σ : Type} (impl : IndexImpl σ)
    (clock : Nat → Int) (w : World σ) (doc : Document) (docs : List Document)
    (hid : doc.Id ≠ "") :
    (dirWorkerBody impl clock w doc).2 =
      [.indexCall [doc] (impl.Index w.idx [doc]).2,
       .latency (since (clock (w.tick + 1)) (clock w.tick))] ∧
    (latencies (dirWorker impl clock w docs).2).length =
      (docs.filter (fun d => d.Id ≠ "")).length := by
  refine ⟨?_, dirWorker_latencies_length impl clock w docs⟩
  simp [dirWorkerBody, hid]

/-- C5 amended, at an index that fails: the latency 15 is pushed. -/
theorem latency_pushed_for_every_indexed_doc_witness :
    doc2.Id ≠ "" ∧
    (dirWorkerBody failingIndex (clockOf [10, 25] 25) ⟨(), 0⟩ doc2).2 =
      [.indexCall [doc2] (some "index failed"), .latency 15] :=
  ⟨by decide,
   (latency_pushed_for_every_indexed_doc failingIndex (clockOf [10, 25] 25) ⟨(), 0⟩ doc2 []
      (by decide)).1.trans (by decide)⟩

/-- C8, the code at a document with score 0: the index worker of `ReadDir`
passes the document to `Index` as it is, with the score 0, whereas `ReadFile`
would enqueue it with the score 0.0000001. -/
theorem readDir_indexes_zero_score {σ : Type} (impl : IndexImpl σ) (clock : Nat → Int)
    (w : World σ) :
    indexCalls (dirWorkerBody impl clock w zeroScoreDoc).2 = [[zeroScoreDoc]] ∧
    zeroScoreDoc.Score = 0 ∧
    (fixScore zeroScoreDoc).Score = 1 / 10000000 := by
  refine ⟨?_, rfl, ?_⟩
  · simp [dirWorkerBody, zeroScoreDoc, indexCalls]
  · simp [fixScore, zeroScoreDoc]

/-! ## Theorems: the enqueue loop of `ReadFile` -/

theorem wrap64_eq_self (x : Int) (hlo : -9223372036854775808 ≤ x)
    (hhi : x < 9223372036854775808) : wrap64 x = x := by
  unfold wrap64
  omega

theorem recordTerm_enqueued (lower : String → String) (chunk : Int) (s : FileLoop)
    (doc : Document) : (recordTerm lower chunk s doc).enqueued = s.enqueued := by
  unfold recordTerm
  split
  · split <;> rfl
  · rfl

theorem readFileBody_enqueued (lower : String → String) (acPresent : Bool) (chunk : Int)
    (s : FileLoop) (doc : Document) :
    ((readFileBody lower acPresent chunk s doc).enqueued = s.enqueued ∧
        (readFileBody lower acPresent chunk s doc).panicked ≠ none) ∨
      (readFileBody lower acPresent chunk s doc).enqueued = s.enqueued ++ [fixScore doc] := by
  unfold readFileBody
  have he : (if 0 < doc.Score ∧ acPresent = true then recordTerm lower chunk s doc
      else s).enqueued = s.enqueued := by
    split
    · exact recordTerm_enqueued lower chunk s doc
    · rfl
  generalize (if 0 < doc.Score ∧ acPresent = true then recordTerm lower chunk s doc
      else s) = s1 at he
  dsimp only
  split
  · rename_i m hm
    left
    exact ⟨he, by simp [hm]⟩
  · right
    split
    · simp [he]
    · split <;> simp [he]

theorem readFileLoop_enqueued (lower : String → String) (acPresent : Bool) (chunk : Int)
    (s : FileLoop) (docs : List Document) :
    ∃ k, k ≤ docs.length ∧
      (readFileLoop lower acPresent chunk s docs).enqueued =
        s.enqueued ++ (docs.take k).map fixScore := by
  induction docs generalizing s with
  | nil => exact ⟨0, le_refl _, by simp [readFileLoop]⟩
  | cons doc rest ih =>
    unfold readFileLoop
    dsimp only
    rcases readFileBody_enqueued lower acPresent chunk s doc with ⟨he, hp⟩ | he
    · split
      · exact ⟨0, Nat.zero_le _, by simp [he]⟩
      · rename_i hn
        exact absurd hn hp
    · split
      · exact ⟨1, by simp, by simp [he]⟩
      · obtain ⟨k, hk, hk2⟩ := ih (readFileBody lower acPresent chunk s doc)
        refine ⟨k + 1, by simpa using hk, ?_⟩
        rw [hk2, he]
        simp

theorem recordTerm_sound (lower : String → String) (chunk : Int) (s : FileLoop)
    (doc : Document) (hc : chunk < 4611686018427387904) (hs : s.Sound chunk)
    (ht : ∃ t, doc.Properties.lookup "title" = some (.str t)) :
    (recordTerm lower chunk s doc).Sound chunk := by
  obtain ⟨t, ht⟩ := ht
  obtain ⟨hp, h0, h1, h2⟩ := hs
  have hidx : 0 ≤ s.nterms ∧ s.nterms.toNat < s.terms.length := ⟨h0, by omega⟩
  have hw : wrap64 (s.nterms + 1) = s.nterms + 1 := wrap64_eq_self _ (by omega) (by omega)
  unfold recordTerm
  rw [ht]
  simp only [hidx, and_self, if_true, hw]
  refine ⟨hp, ?_, ?_, ?_⟩
  · dsimp only
    split <;> omega
  · dsimp only
    split <;> omega
  · simpa using h2

theorem readFileBody_sound (lower : String → String) (acPresent : Bool) (chunk : Int)
    (s : FileLoop) (doc : Document) (hc0 : 0 < chunk) (hc : chunk < 4611686018427387904)
    (hs : s.Sound chunk)
    (ht : acPresent = true → 0 < doc.Score →
      ∃ t, doc.Properties.lookup "title" = some (.str t)) :
    (readFileBody lower acPresent chunk s doc).Sound chunk ∧
      (readFileBody lower acPresent chunk s doc).enqueued = s.enqueued ++ [fixScore doc] := by
  have h1 : (if 0 < doc.Score ∧ acPresent = true then recordTerm lower chunk s doc
      else s).Sound chunk := by
    split
    · rename_i h
      exact recordTerm_sound lower chunk s doc hc hs (ht h.2 h.1)
    · exact hs
  have he : (if 0 < doc.Score ∧ acPresent = true then recordTerm lower chunk s doc
      else s).enqueued = s.enqueued := by
    split
    · exact recordTerm_enqueued lower chunk s doc
    · rfl
  unfold readFileBody
  generalize (if 0 < doc.Score ∧ acPresent = true then recordTerm lower chunk s doc
      else s) = s1 at h1 he
  obtain ⟨hp, h0, hlt, hlen⟩ := h1
  have hne : chunk ≠ 0 := by omega
  simp only [hp, hne, if_false]
  split
  · exact ⟨⟨rfl, h0, hlt, hlen⟩, by simp [he]⟩
  · exact ⟨⟨rfl, h0, hlt, hlen⟩, by simp [he]⟩

theorem readFileLoop_sound (lower : String → String) (acPresent : Bool) (chunk : Int)
    (s : FileLoop) (docs : List Document) (hc0 : 0 < chunk)
    (hc : chunk < 4611686018427387904) (hs : s.Sound chunk)
    (ht : acPresent = true → ∀ d ∈ docs, 0 < d.Score →
      ∃ t, d.Properties.lookup "title" = some (.str t)) :
    (readFileLoop lower acPresent chunk s docs).panicked = none ∧
      (readFileLoop lower acPresent chunk s docs).enqueued =
        s.enqueued ++ docs.map fixScore := by
  induction docs generalizing s with
  | nil => exact ⟨hs.1, by simp [readFileLoop]⟩
  | cons doc rest ih =>
    obtain ⟨hb, he⟩ := readFileBody_sound lower acPresent chunk s doc hc0 hc hs
      (fun ha hd => ht ha doc (List.mem_cons_self _ _) hd)
    have hrest := ih (readFileBody lower acPresent chunk s doc) hb
      (fun ha d hd => ht ha d (List.mem_cons_of_mem _ hd))
    unfold readFileLoop
    simp only [hb.1]
    refine ⟨hrest.1, ?_⟩
    rw [hrest.2, he]
    simp

/-- C9: the documents `ReadFile` enqueues on `doch` are, in order, the documents
read from the reader's channel with the statement of lines 246-248 applied
(all of them when nothing panics; the first `k` of them otherwise); the score of
an enqueued document is never 0: a document read with score 0 is enqueued with
score 0.0000001 and otherwise unchanged, a document read with another score is
enqueued unchanged. For a reader that closes its channel, nothing panics and
`ReadFile` returns `nil` with every document enqueued when `0 < chunk < 2^62`,
the runtime can make a channel of `chunk` and of 100 documents and a slice of
`2 * chunk` suggestions and, if an autocompleter is given, every document with a
positive score has a string `title`. When the runtime cannot make a channel of
`chunk` documents, `ReadFile` panics at line 186 and enqueues nothing. -/
theorem readFile_enqueues_nonzero_scores (rt : Runtime) (lower : String → String)
    (acPresent : Bool) (chunk : Int) (docs : List Document) :
    (∀ d : Document, (fixScore d).Score ≠ 0 ∧
      (d.Score = 0 → fixScore d = { d with Score := 1 / 10000000 }) ∧
      (d.Score ≠ 0 → fixScore d = d)) ∧
    (∃ k, k ≤ docs.length ∧
      (ReadFile rt lower none (.ok docs) acPresent chunk).2 = (docs.take k).map fixScore) ∧
    (0 < chunk → chunk < 4611686018427387904 →
      chunk ≤ rt.maxChan → 100 ≤ rt.maxChan → chunk * 2 ≤ rt.maxSlice →
      (acPresent = true → ∀ d ∈ docs, 0 < d.Score →
        ∃ t, d.Properties.lookup "title" = some (.str t)) →
      ReadFile rt lower none (.ok docs) acPresent chunk =
        (.returned none, docs.map fixScore)) ∧
    (rt.maxChan < chunk →
      ReadFile rt lower none (.ok docs) acPresent chunk =
        (.panicked "makechan: size out of range", [])) := by
  refine ⟨?_, ?_, ?_, ?_⟩
  · intro d
    by_cases h : d.Score = 0
    · simp [fixScore, h]
    · simp [fixScore, h]
  · unfold ReadFile
    dsimp only
    split
    · exact ⟨0, Nat.zero_le _, by simp⟩
    · split
      · exact ⟨0, Nat.zero_le _, by simp⟩
      · split
        · exact ⟨0, Nat.zero_le _, by simp⟩
        · obtain ⟨k, hk, hk2⟩ := readFileLoop_enqueued lower acPresent chunk
            { terms := List.replicate (wrap64 (chunk * 2)).toNat ⟨"", 0⟩
              nterms := 0, i := 0, n := 0, dt := 0, totalDt := 0, tick := 1
              enqueued := [], panicked := none } docs
          refine ⟨k, hk, ?_⟩
          split <;> simpa using hk2
  · intro hc0 hc hchan h100 hslice ht
    have hw : wrap64 (chunk * 2) = chunk * 2 := wrap64_eq_self _ (by omega) (by omega)
    have hsound : FileLoop.Sound chunk
        { terms := List.replicate (wrap64 (chunk * 2)).toNat ⟨"", 0⟩
          nterms := 0, i := 0, n := 0, dt := 0, totalDt := 0, tick := 1
          enqueued := [], panicked := none } := by
      refine ⟨rfl, le_refl _, hc0, ?_⟩
      simp only [List.length_replicate, hw]
      omega
    obtain ⟨hp, he⟩ := readFileLoop_sound lower acPresent chunk _ docs hc0 hc hsound ht
    unfold ReadFile
    have h1 : ¬ (chunk < 0 ∨ rt.maxChan < chunk) := by omega
    have h2 : ¬ (wrap64 (chunk * 2) < 0 ∨ rt.maxSlice < wrap64 (chunk * 2)) := by omega
    have h3 : ¬ rt.maxChan < 100 := by omega
    simp only [h1, h2, h3, if_false, hp]
    simpa using he
  · intro hbig
    unfold ReadFile
    simp [hbig]

/-- C9 at two documents, the first with score 0, read with `chunk = 1` and an
autocompleter: `ReadFile` returns `nil` and has enqueued the first document with
the score 0.0000001 and the second one as it was. -/
theorem readFile_enqueues_nonzero_scores_witness :
    ReadFile exampleRuntime id none (.ok [zeroScoreDoc, doc2]) true 1 =
      (.returned none, [{ zeroScoreDoc with Score := 1 / 10000000 }, doc2]) :=
  ((readFile_enqueues_nonzero_scores exampleRuntime id true 1 [zeroScoreDoc, doc2]).2.2.1
    (by decide) (by decide) (by decide) (by decide) (by decide)
    (fun _ d hd _ => by
      simp only [List.mem_cons, List.mem_singleton, List.not_mem_nil, or_false] at hd
      rcases hd with rfl | rfl
      · exact ⟨"hello world", rfl⟩
      · exact ⟨"foo bar hello", rfl⟩)).trans
    (by simp [fixScore, zeroScoreDoc, doc2])

/-! ## Theorems: the statistics loop of `ReadDir` -/

theorem aggStep_counts (clock : Nat → Int) (a : Agg) (rtt : Int)
    (h0 : 0 ≤ a.stt.CurrentWindowDocs) (hcT : a.stt.CurrentWindowDocs ≤ a.stt.TotalDocs)
    (hT : a.stt.TotalDocs + 1 < 9223372036854775808) :
    ∃ a1 snap, aggStep clock a rtt = .ok (a1, snap) ∧
      a1.stt.TotalDocs = a.stt.TotalDocs + 1 ∧
      ((snap = none ∧ a1.stt.CurrentWindowDocs = a.stt.CurrentWindowDocs + 1) ∨
        (∃ s, snap = some s ∧ s.TotalDocs = a.stt.TotalDocs + 1 ∧
          s.CurrentWindowDocs = a.stt.CurrentWindowDocs + 1 ∧
          a1.stt.CurrentWindowDocs = 0)) := by
  have hT1 : wrap64 (a.stt.TotalDocs + 1) = a.stt.TotalDocs + 1 :=
    wrap64_eq_self _ (by omega) (by omega)
  have hc1 : wrap64 (a.stt.CurrentWindowDocs + 1) = a.stt.CurrentWindowDocs + 1 :=
    wrap64_eq_self _ (by omega) (by omega)
  have hd : wrap64 (1 + (a.stt.CurrentWindowDocs + 1)) ≠ 0 := by
    unfold wrap64
    omega
  unfold aggStep
  simp only [hT1, hc1, hd, if_false]
  split
  · exact ⟨_, _, rfl, rfl, Or.inr ⟨_, rfl, rfl, rfl, rfl⟩⟩
  · exact ⟨_, _, rfl, rfl, Or.inl ⟨rfl, rfl⟩⟩

theorem aggLoop_accounted (clock : Nat → Int) (lats : List Int) (a : Agg)
    (h0 : 0 ≤ a.stt.CurrentWindowDocs) (hcT : a.stt.CurrentWindowDocs ≤ a.stt.TotalDocs)
    (hT : a.stt.TotalDocs + lats.length < 9223372036854775808) :
    (aggLoop clock a lats).panicked = none ∧
    (aggLoop clock a lats).trace.length = lats.length ∧
    (∀ (i : Nat) (s : Stats), (aggLoop clock a lats).trace[i]? = some (some s) →
      s.TotalDocs = a.stt.TotalDocs + i + 1) ∧
    Accounted (a.stt.TotalDocs - a.stt.CurrentWindowDocs)
      ((aggLoop clock a lats).trace.filterMap id) := by
  induction lats generalizing a with
  | nil => simp [aggLoop, Accounted]
  | cons rtt rest ih =>
    simp only [List.length_cons, Nat.cast_add, Nat.cast_one] at hT
    obtain ⟨a1, snap, hstep, hT1, hcase⟩ := aggStep_counts clock a rtt h0 hcT (by omega)
    have hrun : aggLoop clock a (rtt :: rest) =
        ⟨(aggLoop clock a1 rest).final, snap :: (aggLoop clock a1 rest).trace,
          (aggLoop clock a1 rest).panicked⟩ := by
      simp [aggLoop, hstep]
    rw [hrun]
    have hidx : ∀ (p : Option Stats → Prop) (i : Nat),
        (∀ (j : Nat) (s : Stats), (aggLoop clock a1 rest).trace[j]? = some (some s) →
          s.TotalDocs = a1.stt.TotalDocs + j + 1) →
        (∀ s, snap = some s → s.TotalDocs = a.stt.TotalDocs + 1) →
        ∀ s, (snap :: (aggLoop clock a1 rest).trace)[i]? = some (some s) →
          s.TotalDocs = a.stt.TotalDocs + i + 1 := by
      intro _ i hrest hhead s hs
      cases i with
      | zero =>
        simp only [List.getElem?_cons_zero, Option.some.injEq] at hs
        simpa using hhead s hs
      | succ j =>
        simp only [List.getElem?_cons_succ] at hs
        have := hrest j s hs
        rw [this, hT1]
        push_cast
        ring
    rcases hcase with ⟨hnone, hc1⟩ | ⟨s0, hsome, hs0T, hs0c, hc1⟩
    · obtain ⟨hp, hl, hi, hacc⟩ := ih a1 (by omega) (by omega) (by omega)
      refine ⟨hp, by simp [hl], ?_, ?_⟩
      · exact fun i => hidx (fun _ => True) i hi (fun s hs => by simp [hnone] at hs)
      · subst hnone
        have : a1.stt.TotalDocs - a1.stt.CurrentWindowDocs =
            a.stt.TotalDocs - a.stt.CurrentWindowDocs := by omega
        simpa [this] using hacc
    · obtain ⟨hp, hl, hi, hacc⟩ := ih a1 (by omega) (by omega) (by omega)
      refine ⟨hp, by simp [hl], ?_, ?_⟩
      · refine fun i => hidx (fun _ => True) i hi (fun s hs => ?_)
        rw [hsome] at hs
        cases hs
        exact hs0T
      · subst hsome
        simp only [List.filterMap_cons, id]
        refine ⟨by omega, by omega, ?_⟩
        have : a1.stt.TotalDocs - a1.stt.CurrentWindowDocs = s0.TotalDocs := by omega
        simpa [this] using hacc

theorem accounted_sum (base : Int) (snaps : List Stats) (h : Accounted base snaps)
    (k : Nat) (s : Stats) (hk : snaps[k]? = some s) :
    s.TotalDocs = base + ((snaps.take (k + 1)).map (fun x => x.CurrentWindowDocs)).sum := by
  induction snaps generalizing base k with
  | nil => simp at hk
  | cons s0 rest ih =>
    obtain ⟨_, hs0, hrest⟩ := h
    cases k with
    | zero =>
      simp only [List.getElem?_cons_zero, Option.some.injEq] at hk
      subst hk
      simp [hs0]
    | succ j =>
      simp only [List.getElem?_cons_succ] at hk
      rw [ih s0.TotalDocs hrest j hk, hs0]
      simp [List.take_succ_cons, add_assoc]

theorem accounted_increasing (base : Int) (snaps : List Stats) (h : Accounted base snaps) :
    (∀ s ∈ snaps, base < s.TotalDocs ∧ 1 ≤ s.CurrentWindowDocs) ∧
      snaps.Pairwise (fun x y => x.TotalDocs < y.TotalDocs) := by
  induction snaps generalizing base with
  | nil => simp
  | cons s0 rest ih =>
    obtain ⟨h1, hs0, hrest⟩ := h
    obtain ⟨hmem, hpw⟩ := ih s0.TotalDocs hrest
    refine ⟨?_, List.pairwise_cons.2 ⟨fun y hy => (hmem y hy).1, hpw⟩⟩
    intro s hs
    rcases List.mem_cons.1 hs with rfl | hs
    · exact ⟨by omega, h1⟩
    · exact ⟨by have := (hmem s hs).1; omega, (hmem s hs).2⟩

/-- C7: in the sequence of snapshots emitted by the statistics loop of `ReadDir`,
for any latencies (fewer than 2^63 of them, the range of the counters) and any
clock, the `TotalDocs` of the snapshot number `k` is the sum of the
`CurrentWindowDocs` of the snapshots up to and including it; every window
counts at least one document, and `TotalDocs` strictly increases from each
snapshot to every later one. -/
theorem totalDocs_is_sum_of_window_docs (clock : Nat → Int) (lats : List Int)
    (hlen : (lats.length : Int) < 9223372036854775808) :
    (aggLoop clock (aggInit clock) lats).panicked = none ∧
    (∀ (k : Nat) (s : Stats), (snapshots clock lats)[k]? = some s →
      s.TotalDocs =
        (((snapshots clock lats).take (k + 1)).map (fun x => x.CurrentWindowDocs)).sum) ∧
    (∀ s ∈ snapshots clock lats, 1 ≤ s.CurrentWindowDocs) ∧
    (snapshots clock lats).Pairwise (fun x y => x.TotalDocs < y.TotalDocs) ∧
    (snapshots clock lats).Chain' (fun x y => x.TotalDocs < y.TotalDocs) := by
  obtain ⟨hp, _, _, hacc⟩ := aggLoop_accounted clock lats (aggInit clock)
    (by simp [aggInit]) (by simp [aggInit]) (by simpa [aggInit] using hlen)
  have hacc0 : Accounted 0 (snapshots clock lats) := by
    simpa [aggInit, snapshots] using hacc
  obtain ⟨hmem, hpw⟩ := accounted_increasing 0 _ hacc0
  refine ⟨hp, ?_, fun s hs => (hmem s hs).2, hpw, hpw.chain'⟩
  intro k s hk
  simpa using accounted_sum 0 _ hacc0 k s hk

/-- C7 at three latencies of which the first and the third end a window: the
snapshots report the totals 1 and 3 with the window counts 1 and 2. -/
theorem totalDocs_is_sum_of_window_docs_witness :
    (snapshots twoWindows [5, 7, 9]).map (fun s => (s.TotalDocs, s.CurrentWindowDocs)) =
      [(1, 1), (3, 2)] ∧
    ((aggLoop twoWindows (aggInit twoWindows) [5, 7, 9]).panicked = none ∧
    (∀ (k : Nat) (s : Stats), (snapshots twoWindows [5, 7, 9])[k]? = some s →
      s.TotalDocs = (((snapshots twoWindows [5, 7, 9]).take (k + 1)).map
        (fun x => x.CurrentWindowDocs)).sum) ∧
    (∀ s ∈ snapshots twoWindows [5, 7, 9], 1 ≤ s.CurrentWindowDocs) ∧
    (snapshots twoWindows [5, 7, 9]).Pairwise (fun x y => x.TotalDocs < y.TotalDocs) ∧
    (snapshots twoWindows [5, 7, 9]).Chain' (fun x y => x.TotalDocs < y.TotalDocs)) :=
  ⟨by decide, totalDocs_is_sum_of_window_docs twoWindows [5, 7, 9] (by decide)⟩

/-- C3, refuted: two latencies are received, the first ends a window and the
second does not; the last (and only) snapshot emitted reports `TotalDocs = 1`,
not 2. -/
theorem last_snapshot_misses_trailing_docs :
    ¬ ((snapshots oneWindow [5, 7]).getLast?.map (fun s => s.TotalDocs) =
        some ((List.length [(5 : Int), 7] : Nat) : Int)) := by
  decide

/-- C3, amended: the `TotalDocs` reported by a snapshot is the number of
latencies received up to and including the one on which it is emitted; so the
last emitted snapshot reports the number of latencies received up to its own
emission, which is at most the number of latencies received in the run. (For
fewer than 2^63 latencies, the range of the counter.) -/
theorem last_snapshot_counts_docs_up_to_emission (clock : Nat → Int) (lats : List Int)
    (hlen : (lats.length : Int) < 9223372036854775808) :
    (aggLoop clock (aggInit clock) lats).panicked = none ∧
    (aggLoop clock (aggInit clock) lats).trace.length = lats.length ∧
    (∀ (i : Nat) (s : Stats),
      (aggLoop clock (aggInit clock) lats).trace[i]? = some (some s) →
        s.TotalDocs = i + 1) ∧
    (∀ s : Stats, (snapshots clock lats).getLast? = some s →
      ∃ i : Nat, i < lats.length ∧
        (aggLoop clock (aggInit clock) lats).trace[i]? = some (some s) ∧
        s.TotalDocs = i + 1 ∧ s.TotalDocs ≤ lats.length) := by
  obtain ⟨hp, hl, hi, _⟩ := aggLoop_accounted clock lats (aggInit clock)
    (by simp [aggInit]) (by simp [aggInit]) (by simpa [aggInit] using hlen)
  have hi0 : ∀ (i : Nat) (s : Stats),
      (aggLoop clock (aggInit clock) lats).trace[i]? = some (some s) →
        s.TotalDocs = i + 1 := by
    intro i s h
    simpa [aggInit] using hi i s h
  refine ⟨hp, hl, hi0, ?_⟩
  intro s hs
  have hmem : s ∈ snapshots clock lats := List.mem_of_getLast?_eq_some hs
  have hmem2 : some s ∈ (aggLoop clock (aggInit clock) lats).trace := by
    simpa [snapshots, List.mem_filterMap] using hmem
  obtain ⟨i, hlt, hget⟩ := List.getElem_of_mem hmem2
  have hget2 : (aggLoop clock (aggInit clock) lats).trace[i]? = some (some s) := by
    rw [List.getElem?_eq_getElem hlt, hget]
  have hT := hi0 i s hget2
  refine ⟨i, by omega, hget2, hT, ?_⟩
  rw [hT]
  have : (i : Int) + 1 ≤ lats.length := by omega
  exact this

/-- C3 amended, at two latencies of which only the first ends a window: the one
snapshot reports 1. -/
theorem last_snapshot_counts_docs_up_to_emission_witness :
    (snapshots oneWindow [5, 7]).getLast?.map (fun s => s.TotalDocs) = some 1 ∧
    ∀ s : Stats, (snapshots oneWindow [5, 7]).getLast? = some s →
      ∃ i : Nat, i < [(5 : Int), 7].length ∧
        (aggLoop oneWindow (aggInit oneWindow) [5, 7]).trace[i]? = some (some s) ∧
        s.TotalDocs = i + 1 ∧ s.TotalDocs ≤ [(5 : Int), 7].length :=
  ⟨by decide,
   (last_snapshot_counts_docs_up_to_emission oneWindow [5, 7] (by decide)).2.2.2⟩

/-- C4, the code at one latency of 300 ms that ends a window (and at two
latencies of 100 ms and 300 ms that end one together): the snapshot has
`CurrentWindowDocs = 1` and `CurrentWindowLatency` = 150 ms, the sum divided by
`1 + CurrentWindowDocs`, whereas the mean latency is 300 ms (for the two:
133333333 ns, whereas the mean is 200 ms). -/
theorem window_latency_divides_by_docs_plus_one :
    (snapshots (clockOf [0, 300000000] 300000000) [300000000]).map
        (fun s => (s.CurrentWindowDocs, s.CurrentWindowLatency)) = [(1, 150000000)] ∧
      Int.tdiv 300000000 1 = 300000000 ∧
    (snapshots (clockOf [0, 100000000, 300000000] 300000000) [100000000, 300000000]).map
        (fun s => (s.CurrentWindowDocs, s.CurrentWindowLatency)) = [(2, 133333333)] ∧
      Int.tdiv (100000000 + 300000000) 2 = 200000000 := by
  decide

/-! ## Theorems: the goroutines of `ReadDir` -/

theorem send_closed {α : Type} (c c1 : Chan α) (a : α) (h : c.send a = some c1) :
    c1.closed = c.closed := by
  unfold Chan.send at h
  split at h
  · cases h
    rfl
  · cases h

theorem recv_value_closed {α : Type} (c c1 : Chan α) (a : α) (h : c.recv = .value a c1) :
    c1.closed = c.closed := by
  unfold Chan.recv at h
  split at h
  · cases h
    rfl
  · split at h <;> cases h

theorem recv_done_closed {α : Type} (c : Chan α) (h : c.recv = .done) : c.closed = true := by
  unfold Chan.recv at h
  split at h
  · cases h
  · split at h
    · assumption
    · cases h

/-- No step of `ReadDir` closes `doch` or `countch`, and while `countch` is open
the caller stays in its loop. -/
theorem step_keeps_open {σ : Type} (cfg : DirConfig σ) (s s1 : DirState σ) (a : Action)
    (hs : s.caller = .looping ∧ s.countch.closed = false ∧ s.doch.closed = false)
    (h : step cfg s a = some s1) :
    s1.caller = .looping ∧ s1.countch.closed = false ∧ s1.doch.closed = false := by
  obtain ⟨h1, h2, h3⟩ := hs
  cases a with
  | walkSend =>
    simp only [step] at h
    split at h
    · split at h
      · cases h
        exact ⟨h1, h2, h3⟩
      · cases h
    · cases h
  | walkClose =>
    simp only [step] at h
    split at h
    · cases h
      exact ⟨h1, h2, h3⟩
    · cases h
  | spawn =>
    simp only [step] at h
    split at h
    · cases h
      exact ⟨h1, h2, h3⟩
    · cases h
  | wgWait =>
    simp only [step] at h
    split at h
    · cases h
      exact ⟨h1, h2, h3⟩
    · cases h
  | fileRecv k =>
    simp only [step] at h
    split at h
    · split at h
      · cases h
        exact ⟨h1, h2, h3⟩
      · cases h
        exact ⟨h1, h2, h3⟩
      · cases h
    · cases h
  | fileRead k =>
    simp only [step] at h
    split at h
    · split at h
      · rename_i ch hsend
        cases h
        exact ⟨h1, h2, (send_closed _ _ _ hsend).trans h3⟩
      · cases h
    · cases h
      exact ⟨h1, h2, h3⟩
    · cases h
  | indexRecv k =>
    simp only [step] at h
    split at h
    · split at h
      · rename_i d ch hrecv
        split at h
        · cases h
          exact ⟨h1, h2, (recv_value_closed _ _ _ hrecv).trans h3⟩
        · cases h
          exact ⟨h1, h2, (recv_value_closed _ _ _ hrecv).trans h3⟩
      · cases h
        exact ⟨h1, h2, h3⟩
      · cases h
    · cases h
  | indexSend k =>
    simp only [step] at h
    split at h
    · split at h
      · rename_i ch hsend
        cases h
        exact ⟨h1, (send_closed _ _ _ hsend).trans h2, h3⟩
      · cases h
    · cases h
  | callerRecv =>
    simp only [step] at h
    split at h
    · split at h
      · rename_i d ch hrecv
        cases h
        exact ⟨h1, (recv_value_closed _ _ _ hrecv).trans h2, h3⟩
      · rename_i hdone
        have := recv_done_closed _ hdone
        rw [h2] at this
        cases this
      · cases h
    · cases h

theorem run_keeps_open {σ : Type} (cfg : DirConfig σ) (acts : List Action)
    (s s1 : DirState σ)
    (hs : s.caller = .looping ∧ s.countch.closed = false ∧ s.doch.closed = false)
    (h : run cfg s acts = some s1) :
    s1.caller = .looping ∧ s1.countch.closed = false ∧ s1.doch.closed = false := by
  induction acts generalizing s with
  | nil =>
    simp only [run, Option.some.injEq] at h
    subst h
    exact hs
  | cons a rest ih =>
    simp only [run] at h
    split at h
    · rename_i s2 hstep
      exact ih s2 (step_keeps_open cfg s s2 a hs hstep) h
    · cases h

/-- C10, the code: in every state that a call of `ReadDir` reaches, under any
schedule of its goroutines and for any directory, reader and arguments, the
caller is still in the loop `for rtt := range countch`, and `countch` and `doch`
are open: no statement closes them, so the loop never ends and `ReadDir` does
not return. -/
theorem readDir_never_returns {σ : Type} (cfg : DirConfig σ) (acts : List Action)
    (s : DirState σ) (h : run cfg (DirState.init cfg) acts = some s) :
    s.caller = .looping ∧ s.countch.closed = false ∧ s.doch.closed = false :=
  run_keeps_open cfg acts (DirState.init cfg) s ⟨rfl, rfl, rfl⟩ h

/-- C10 at an empty directory: once `walkDir` has returned, the index worker is
started and the file worker has left its loop, no goroutine can move, and the
caller waits at `for rtt := range countch` for ever. -/
theorem readDir_never_returns_witness :
    ∃ s, run emptyDir (DirState.init emptyDir) [.walkClose, .spawn, .fileRecv 0] = some s ∧
      (∀ a, step emptyDir s a = none) ∧
      s.caller = .looping ∧ s.countch.closed = false ∧ s.doch.closed = false := by
  refine ⟨_, rfl, ?_, readDir_never_returns emptyDir [.walkClose, .spawn, .fileRecv 0] _ rfl⟩
  intro a
  cases a with
  | fileRecv k => cases k <;> rfl
  | fileRead k => cases k <;> rfl
  | indexRecv k => cases k <;> rfl
  | indexSend k => cases k <;> rfl
  | _ => rfl

/-- The model lets a document through: on a directory with one file holding one
document, a schedule brings the document's latency to the caller, which is then
still in its loop. -/
theorem oneFile_latency_reaches_caller :
    (run oneFile (DirState.init oneFile) [.walkSend, .walkClose, .spawn, .fileRecv 0,
      .fileRead 0, .fileRead 0, .fileRecv 0, .indexRecv 0, .indexSend 0, .callerRecv]).map
      (fun s => (s.received, s.caller, s.fileWorkers, s.indexWorkers)) =
      some ([5], .looping, [.exited], [.idle]) := by
  decide

/-! ## Theorems: what the index workers pass to `Index` -/

theorem send_buf {α : Type} (c c1 : Chan α) (a : α) (h : c.send a = some c1) :
    c1.buf = c.buf ++ [a] := by
  unfold Chan.send at h
  split at h
  · cases h
    rfl
  · cases h

theorem recv_value_buf {α : Type} (c c1 : Chan α) (a : α) (h : c.recv = .value a c1) :
    c.buf = a :: c1.buf := by
  unfold Chan.recv at h
  split at h
  · rename_i b rest hb
    cases h
    exact hb
  · split at h <;> cases h

theorem recv_done_buf {α : Type} (c : Chan α) (h : c.recv = .done) : c.buf = [] := by
  unfold Chan.recv at h
  split at h
  · cases h
  · assumption

theorem indexAll_filter_append {σ : Type} (impl : IndexImpl σ) (st : σ)
    (xs ys : List Document) :
    indexAll impl st ((xs ++ ys).filter (fun d => d.Id ≠ "")) =
      indexAll impl (indexAll impl st (xs.filter (fun d => d.Id ≠ "")))
        (ys.filter (fun d => d.Id ≠ "")) := by
  simp [indexAll, List.filter_append, List.foldl_append]

theorem dirWorkerBody_idx {σ : Type} (impl : IndexImpl σ) (clock : Nat → Int) (w : World σ)
    (d : Document) :
    (dirWorkerBody impl clock w d).1.idx =
      indexAll impl w.idx ([d].filter (fun d => d.Id ≠ "")) := by
  by_cases h : d.Id = "" <;> simp [dirWorkerBody, indexAll, h]

theorem fileWorkerBody_idx {σ : Type} (impl : IndexImpl σ) (w : World σ) (d : Document) :
    (fileWorkerBody impl w d).1.idx =
      indexAll impl w.idx ([d].filter (fun d => d.Id ≠ "")) := by
  by_cases h : d.Id = "" <;> simp [fileWorkerBody, indexAll, h]

theorem dirWorker_idx {σ : Type} (impl : IndexImpl σ) (clock : Nat → Int) (w : World σ)
    (docs : List Document) :
    (dirWorker impl clock w docs).1.idx =
      indexAll impl w.idx (docs.filter (fun d => d.Id ≠ "")) := by
  induction docs generalizing w with
  | nil => rfl
  | cons doc rest ih =>
    have h := indexAll_filter_append impl w.idx [doc] rest
    simp only [List.singleton_append] at h
    simp only [dirWorker]
    rw [ih, dirWorkerBody_idx, h]

theorem fileWorker_idx {σ : Type} (impl : IndexImpl σ) (w : World σ)
    (docs : List Document) :
    (fileWorker impl w docs).1.idx =
      indexAll impl w.idx (docs.filter (fun d => d.Id ≠ "")) := by
  induction docs generalizing w with
  | nil => rfl
  | cons doc rest ih =>
    have h := indexAll_filter_append impl w.idx [doc] rest
    simp only [List.singleton_append] at h
    simp only [fileWorker]
    rw [ih, fileWorkerBody_idx, h]

/-- With the recording index, `indexAll` appends the one-document batches. -/
theorem indexAll_recordingIndex (st : List (List Document)) (docs : List Document) :
    indexAll recordingIndex st docs = st ++ docs.map (fun d => [d]) := by
  induction docs generalizing st with
  | nil => simp [indexAll]
  | cons d rest ih =>
    have h : indexAll recordingIndex st (d :: rest) =
        indexAll recordingIndex (st ++ [[d]]) rest := rfl
    rw [h, ih]
    simp

/-- Every step of `ReadDir` keeps the account of `doch` and of the index: the
documents sent on `doch` are those taken from it followed by those still in it,
and the index is in the state that the calls `Index([doc])` for the documents
taken with a non-empty `Id` lead to. -/
theorem step_keeps_account {σ : Type} (cfg : DirConfig σ) (s s1 : DirState σ) (a : Action)
    (hs : s.delivered = s.taken ++ s.doch.buf ∧
      s.world.idx = indexAll cfg.impl cfg.idx0 (s.taken.filter (fun d => d.Id ≠ "")))
    (h : step cfg s a = some s1) :
    s1.delivered = s1.taken ++ s1.doch.buf ∧
      s1.world.idx = indexAll cfg.impl cfg.idx0 (s1.taken.filter (fun d => d.Id ≠ "")) := by
  obtain ⟨h1, h2⟩ := hs
  cases a with
  | walkSend =>
    simp only [step] at h
    split at h
    · split at h
      · cases h
        exact ⟨h1, h2⟩
      · cases h
    · cases h
  | walkClose =>
    simp only [step] at h
    split at h
    · cases h
      exact ⟨h1, h2⟩
    · cases h
  | spawn =>
    simp only [step] at h
    split at h
    · cases h
      exact ⟨h1, h2⟩
    · cases h
  | wgWait =>
    simp only [step] at h
    split at h
    · cases h
      exact ⟨h1, h2⟩
    · cases h
  | fileRecv k =>
    simp only [step] at h
    split at h
    · split at h
      · cases h
        exact ⟨h1, h2⟩
      · cases h
        exact ⟨h1, h2⟩
      · cases h
    · cases h
  | fileRead k =>
    simp only [step] at h
    split at h
    · split at h
      · rename_i ch hsend
        cases h
        refine ⟨?_, h2⟩
        simp only [send_buf _ _ _ hsend, h1, List.append_assoc]
      · cases h
    · cases h
      exact ⟨h1, h2⟩
    · cases h
  | indexRecv k =>
    simp only [step] at h
    split at h
    · split at h
      · rename_i d ch hrecv
        have hb := recv_value_buf _ _ _ hrecv
        have hidx : (dirWorkerBody cfg.impl cfg.clock s.world d).1.idx =
            indexAll cfg.impl cfg.idx0 ((s.taken ++ [d]).filter (fun d => d.Id ≠ "")) := by
          rw [dirWorkerBody_idx, h2, indexAll_filter_append]
        split at h
        · cases h
          exact ⟨by simp [h1, hb], hidx⟩
        · cases h
          exact ⟨by simp [h1, hb], hidx⟩
      · cases h
        exact ⟨h1, h2⟩
      · cases h
    · cases h
  | indexSend k =>
    simp only [step] at h
    split at h
    · split at h
      · cases h
        exact ⟨h1, h2⟩
      · cases h
    · cases h
  | callerRecv =>
    simp only [step] at h
    split at h
    · split at h
      · cases h
        exact ⟨h1, h2⟩
      · cases h
        exact ⟨h1, h2⟩
      · cases h
    · cases h

theorem run_keeps_account {σ : Type} (cfg : DirConfig σ) (acts : List Action)
    (s s1 : DirState σ)
    (hs : s.delivered = s.taken ++ s.doch.buf ∧
      s.world.idx = indexAll cfg.impl cfg.idx0 (s.taken.filter (fun d => d.Id ≠ "")))
    (h : run cfg s acts = some s1) :
    s1.delivered = s1.taken ++ s1.doch.buf ∧
      s1.world.idx = indexAll cfg.impl cfg.idx0 (s1.taken.filter (fun d => d.Id ≠ "")) := by
  induction acts generalizing s with
  | nil =>
    simp only [run, Option.some.injEq] at h
    subst h
    exact hs
  | cons a rest ih =>
    simp only [run] at h
    split at h
    · rename_i s2 hstep
      exact ih s2 (step_keeps_account cfg s s2 a hs hstep) h
    · cases h

/-- Every step of the hand-over of `ReadFile` keeps the state sound and keeps
the account of `doch` and of the index. -/
theorem fileStep_keeps_account {σ : Type} (cfg : FileConfig σ) (s s1 : FileState σ)
    (a : FileAction)
    (hs : s.Sound cfg ∧ s.delivered = s.taken ++ s.doch.buf ∧
      s.world.idx = indexAll cfg.impl cfg.idx0 (s.taken.filter (fun d => d.Id ≠ "")))
    (h : fileStep cfg s a = some s1) :
    s1.Sound cfg ∧ s1.delivered = s1.taken ++ s1.doch.buf ∧
      s1.world.idx = indexAll cfg.impl cfg.idx0 (s1.taken.filter (fun d => d.Id ≠ "")) := by
  obtain ⟨⟨i1, i3, i5, i4, i6⟩, h1, h2⟩ := hs
  cases a with
  | send =>
    simp only [fileStep] at h
    split at h
    · rename_i d rest hp
      split at h
      · rename_i ch hsend
        cases h
        have hopen : s.doch.closed = false := i3 ⟨_, hp⟩
        refine ⟨⟨?_, ?_, i5, ?_, ?_⟩, ?_, h2⟩
        · simpa [Producer.toSend, hp] using i1
        · intro _
          exact (send_closed _ _ _ hsend).trans hopen
        · intro hwg
          have := (i4 hwg).2
          rw [hopen] at this
          cases this
        · intro hret
          cases hret
        · simp only [send_buf _ _ _ hsend, h1, List.append_assoc]
      · cases h
    · cases h
  | close =>
    simp only [fileStep] at h
    split at h
    · rename_i hp
      cases h
      refine ⟨⟨?_, ?_, i5, ?_, ?_⟩, h1, h2⟩
      · simpa [Producer.toSend, hp] using i1
      · rintro ⟨rest, hrest⟩
        cases hrest
      · intro hwg
        exact ⟨(i4 hwg).1, rfl⟩
      · intro hret
        cases hret
    · cases h
  | workerRecv k =>
    simp only [fileStep] at h
    split at h
    · split at h
      · rename_i d ch hrecv
        have hb := recv_value_buf _ _ _ hrecv
        cases h
        refine ⟨⟨i1, ?_, i5, ?_, i6⟩, ?_, ?_⟩
        · intro hp
          exact (recv_value_closed _ _ _ hrecv).trans (i3 hp)
        · intro hwg
          have := (i4 hwg).1
          rw [hb] at this
          cases this
        · simp [h1, hb]
        · show (fileWorkerBody cfg.impl s.world d).1.idx = _
          rw [fileWorkerBody_idx, h2, indexAll_filter_append]
      · rename_i hdone
        cases h
        refine ⟨⟨i1, i3, ?_, ?_, ?_⟩, h1, h2⟩
        · show s.wg - 1 ≤ 200
          omega
        · intro _
          exact ⟨recv_done_buf _ hdone, recv_done_closed _ hdone⟩
        · intro hret
          show s.wg - 1 = 0
          have := i6 hret
          omega
      · cases h
    · cases h
  | wait =>
    simp only [fileStep] at h
    split at h
    · rename_i hp
      split at h
      · rename_i hwg
        cases h
        refine ⟨⟨?_, ?_, i5, i4, ?_⟩, h1, h2⟩
        · simpa [Producer.toSend, hp] using i1
        · rintro ⟨rest, hrest⟩
          cases hrest
        · intro _
          exact hwg
      · cases h
    · cases h

theorem fileRun_keeps_account {σ : Type} (cfg : FileConfig σ) (acts : List FileAction)
    (s s1 : FileState σ)
    (hs : s.Sound cfg ∧ s.delivered = s.taken ++ s.doch.buf ∧
      s.world.idx = indexAll cfg.impl cfg.idx0 (s.taken.filter (fun d => d.Id ≠ "")))
    (h : fileRun cfg s acts = some s1) :
    s1.Sound cfg ∧ s1.delivered = s1.taken ++ s1.doch.buf ∧
      s1.world.idx = indexAll cfg.impl cfg.idx0 (s1.taken.filter (fun d => d.Id ≠ "")) := by
  induction acts generalizing s with
  | nil =>
    simp only [fileRun, Option.some.injEq] at h
    subst h
    exact hs
  | cons a rest ih =>
    simp only [fileRun] at h
    split at h
    · rename_i s2 hstep
      exact ih s2 (fileStep_keeps_account cfg s s2 a hs hstep) h
    · cases h

/-- C6: the documents that the index workers of `ReadDir` and of `ReadFile` pass
to `Index` are exactly the delivered documents whose `Id` is non-empty, each as
its own one-document batch. In every state `s` that a call of `ReadDir` reaches
and every state `fs` that the hand-over of `ReadFile` reaches, under any
schedule and for any index: the documents sent on `doch` are those taken by the
workers followed by those still waiting in `doch`, and the index is in the state
that the calls `Index([doc])`, one for each document taken with a non-empty
`Id`, lead to from its state at the start; when `doch` is drained these are all
the delivered documents, and when `ReadFile` has returned they are all the
documents it enqueued. The same holds for the loop of one worker on the
documents it takes. A document whose `Id` is empty leaves a worker with no event
(no `Index` call, no latency, no error) and the index untouched. -/
theorem workers_index_nonempty_ids {σ : Type} (cfg : DirConfig σ) (acts : List Action)
    (s : DirState σ) (fcfg : FileConfig σ) (facts : List FileAction) (fs : FileState σ)
    (h : run cfg (DirState.init cfg) acts = some s)
    (hf : fileRun fcfg (FileState.init fcfg) facts = some fs) :
    (s.delivered = s.taken ++ s.doch.buf ∧
      s.world.idx = indexAll cfg.impl cfg.idx0 (s.taken.filter (fun d => d.Id ≠ "")) ∧
      (s.doch.buf = [] →
        s.world.idx = indexAll cfg.impl cfg.idx0 (s.delivered.filter (fun d => d.Id ≠ "")))) ∧
    (fs.delivered = fs.taken ++ fs.doch.buf ∧
      fs.world.idx = indexAll fcfg.impl fcfg.idx0 (fs.taken.filter (fun d => d.Id ≠ "")) ∧
      (fs.producer = .returned →
        fs.taken = fcfg.docs ∧
        fs.world.idx =
          indexAll fcfg.impl fcfg.idx0 (fcfg.docs.filter (fun d => d.Id ≠ "")))) ∧
    (∀ (impl : IndexImpl σ) (clock : Nat → Int) (w : World σ) (docs : List Document),
      (dirWorker impl clock w docs).1.idx =
          indexAll impl w.idx (docs.filter (fun d => d.Id ≠ "")) ∧
        indexCalls (dirWorker impl clock w docs).2 =
          (docs.filter (fun d => d.Id ≠ "")).map (fun d => [d]) ∧
        (fileWorker impl w docs).1.idx =
          indexAll impl w.idx (docs.filter (fun d => d.Id ≠ "")) ∧
        indexCalls (fileWorker impl w docs).2 =
          (docs.filter (fun d => d.Id ≠ "")).map (fun d => [d])) ∧
    ∀ (impl : IndexImpl σ) (clock : Nat → Int) (w : World σ) (doc : Document),
      doc.Id = "" →
        dirWorkerBody impl clock w doc = (w, []) ∧ fileWorkerBody impl w doc = (w, []) := by
  obtain ⟨hd1, hd2⟩ := run_keeps_account cfg acts (DirState.init cfg) s ⟨rfl, rfl⟩ h
  have hinit : (FileState.init fcfg).Sound fcfg :=
    ⟨by simp [FileState.init, Producer.toSend], fun _ => rfl, le_refl _,
      fun hwg => absurd hwg (lt_irrefl _), fun hret => by cases hret⟩
  obtain ⟨⟨i1, _, _, i4, i6⟩, hf1, hf2⟩ :=
    fileRun_keeps_account fcfg facts (FileState.init fcfg) fs ⟨hinit, rfl, rfl⟩ hf
  refine ⟨⟨hd1, hd2, ?_⟩, ⟨hf1, hf2, ?_⟩, ?_, ?_⟩
  · intro hbuf
    rw [hd2, hd1, hbuf, List.append_nil]
  · intro hret
    have hwg : fs.wg < 200 := by
      rw [i6 hret]
      decide
    have htaken : fs.taken = fcfg.docs := by
      have hbuf := (i4 hwg).1
      rw [hbuf, List.append_nil] at hf1
      rw [← hf1, ← i1, hret]
      simp [Producer.toSend]
    exact ⟨htaken, by rw [hf2, htaken]⟩
  · intro impl clock w docs
    exact ⟨dirWorker_idx impl clock w docs, dirWorker_indexCalls impl clock w docs,
      fileWorker_idx impl w docs, fileWorker_indexCalls impl w docs⟩
  · intro impl clock w doc hid
    simp [dirWorkerBody, fileWorkerBody, hid]

set_option maxRecDepth 100000 in
/-- C6 at three delivered documents, the second with an empty `Id`, and an index
that records the batches it is given: after `ReadDir` has let the three
documents through, and when `ReadFile` has returned, the index has received
exactly the batches `[doc2]` and `[zeroScoreDoc]`. -/
theorem workers_index_nonempty_ids_witness :
    ∃ s fs,
      run threeDocs (DirState.init threeDocs) threeDocsDirSchedule = some s ∧
      fileRun threeDocsFile (FileState.init threeDocsFile) threeDocsSchedule = some fs ∧
      s.doch.buf = [] ∧ s.delivered = [doc2, ⟨"", 1, []⟩, zeroScoreDoc] ∧
      s.world.idx = [[doc2], [zeroScoreDoc]] ∧
      fs.producer = .returned ∧ fs.taken = [doc2, ⟨"", 1, []⟩, zeroScoreDoc] ∧
      fs.world.idx = [[doc2], [zeroScoreDoc]] := by
  have hw := workers_index_nonempty_ids threeDocs threeDocsDirSchedule _ threeDocsFile
    threeDocsSchedule _ rfl rfl
  exact ⟨_, _, rfl, rfl, rfl, rfl, (hw.1.2.2 rfl).trans rfl, rfl,
    (hw.2.1.2.2 rfl).1.trans rfl, (hw.2.1.2.2 rfl).2.trans rfl⟩

end RediSearchBenchmark
